import Mathlib

/-!
# sctl pull: a shallow embedding of cmd/sctl/sync.go

The development models the three functions of `sync.go` that carry the
behaviour of `sctl pull`:

* `helmHostToRepoName`, the host to repository-name mapping,
* `addHelmRepo`, the locked read-modify-write of the repositories file,
* `buildHelmIndex` and `pull`, which merge the cached indexes and hand the
  entries of the requested chart to `pullChart`.

Go strings are byte sequences; they are modelled as lists of bytes, so that
slicing (`Path[1:]`) and `strings` functions act on bytes as they do in Go.
Calls into libraries (net/url, os, flock, yaml, helm) are fields of an
environment record `Env`: the theorems hold for every behaviour of them.
-/

set_option autoImplicit false

namespace Sctl

/-! ## Go strings -/

/-- A Go `string`: an immutable sequence of bytes. -/
abbrev GoString := List UInt8

/-- The bytes of an ASCII literal of the source. -/
def str (s : String) : GoString := s.data.map (fun c => UInt8.ofNat c.toNat)

/-- The byte `/`, the path separator (`os.IsPathSeparator` on Unix). -/
def slash : UInt8 := 47

/-- The byte `.`. -/
def dot : UInt8 := 46

/-- The byte `-`. -/
def dash : UInt8 := 45

/-- Go `strings.HasPrefix(s, p)`. -/
def hasPrefixB : GoString → GoString → Bool
  | _, [] => true
  | [], _ :: _ => false
  | c :: cs, p :: ps => c == p && hasPrefixB cs ps

/-- Go `strings.Contains(s, substr)`: some suffix of `s` starts with `substr`. -/
def Contains : GoString → GoString → Bool
  | [], substr => hasPrefixB [] substr
  | c :: cs, substr => hasPrefixB (c :: cs) substr || Contains cs substr

/-- Go `strings.HasSuffix(s, suffix)`. -/
def HasSuffix (s suffix : GoString) : Bool :=
  suffix.length ≤ s.length && s.drop (s.length - suffix.length) == suffix

/-- Go `strings.TrimSuffix(s, suffix)`: `s` without the trailing `suffix`, or
`s` itself when it does not end in `suffix`. -/
def TrimSuffix (s suffix : GoString) : GoString :=
  if HasSuffix s suffix then s.take (s.length - suffix.length) else s

/-- Go `strings.ReplaceAll(s, old, new)` for a one-byte `old` and a one-byte
`new`, the shape of the only call in `sync.go`: occurrences of a one-byte
pattern cannot overlap, so every byte equal to `old` becomes `new`. -/
def ReplaceAll (s : GoString) (old new : UInt8) : GoString :=
  s.map (fun b => if b = old then new else b)

/-- The scan of Go `filepath.Ext` over the reversed path: walk back from the
last byte until a separator; at the first dot return the bytes from it on.
`acc` holds the bytes already passed, in path order. -/
def extScan : List UInt8 → GoString → GoString
  | [], _ => []
  | c :: rest, acc =>
    if c = slash then []
    else if c = dot then c :: acc
    else extScan rest (c :: acc)

/-- Go `filepath.Ext(path)`: the suffix beginning at the final dot in the final
element of `path`; empty if there is no dot. -/
def Ext (path : GoString) : GoString := extScan path.reverse []

/-- The scan of Go `filepath.Dir`: drop the bytes after the last separator of
the reversed path, and give back what is left, in path order. -/
def dirScan : List UInt8 → GoString
  | [] => []
  | c :: rest => if c = slash then (c :: rest).reverse else dirScan rest

/-- Go `filepath.Dir(path)` on Unix: everything up to and including the last
separator, passed through `filepath.Clean`, which is a parameter here. -/
def Dir (clean : GoString → GoString) (path : GoString) : GoString :=
  clean (dirScan path.reverse)

/-- Go `filepath.Join(elem...)` on Unix: the non-empty elements joined by the
separator and cleaned; empty when every element is empty. -/
def Join (clean : GoString → GoString) (elem : List GoString) : GoString :=
  match elem.filter (fun e => !e.isEmpty) with
  | [] => []
  | e :: es => clean (es.foldl (fun acc x => acc ++ slash :: x) e)

/-! ## sync.go: helmHostToRepoName and the lock path of addHelmRepo -/

/-- The function `helmHostToRepoName` of sync.go:
`strings.ReplaceAll(host, ".", "-")`. -/
def helmHostToRepoName (host : GoString) : GoString :=
  ReplaceAll host dot dash

/-- The lock path computed by `addHelmRepo` (sync.go lines 136-142) from the
path of the repositories file. -/
def lockPath (repoFile : GoString) : GoString :=
  let repoFileExt := Ext repoFile
  if 0 < repoFileExt.length ∧ repoFileExt.length < repoFile.length then
    TrimSuffix repoFile repoFileExt ++ str ".lock"
  else
    repoFile ++ str ".lock"

/-! ## Errors and the data of the libraries -/

/-- A Go `error` value. `notExist` and `exist` are the errors recognised by
`os.IsNotExist` and `os.IsExist`; `lib` is any other error of a library;
`errorf` and `wrapf` are the errors built in sync.go by `fmt.Errorf`,
`errors.New` and `errors.Wrapf`, with the format string, its string
arguments and, for `wrapf`, the wrapped error. -/
inductive GoError where
  | notExist
  | exist
  | lib (msg : String)
  | errorf (format : String) (args : List GoString)
  | wrapf (format : String) (args : List GoString) (cause : GoError)
  deriving DecidableEq, Repr

/-- Go `os.IsExist(err)`. -/
def IsExist : GoError → Bool
  | .exist => true
  | _ => false

/-- Go `os.IsNotExist(err)`. -/
def IsNotExist : GoError → Bool
  | .notExist => true
  | _ => false

/-- The fields of a parsed `net/url.URL` that a locator carries. -/
structure URL where
  Scheme : GoString
  Host : GoString
  Path : GoString
  RawQuery : GoString
  deriving DecidableEq, Repr

/-- The helm library's `repo.Entry`, one repository of the repositories file. -/
structure Entry where
  Name : GoString
  URL : GoString
  Username : GoString
  Password : GoString
  PassCredentialsAll : Bool
  CertFile : GoString
  KeyFile : GoString
  CAFile : GoString
  InsecureSkipTLSverify : Bool
  deriving DecidableEq, Repr

/-- The zero `time.Time` in the text form in which a repositories file holds
the field `generated` (RFC 3339). -/
def zeroTime : GoString := str "0001-01-01T00:00:00Z"

/-- The helm library's `repo.File`, the decoded repositories file. Entries are
taken to be non-nil; the time `Generated` is kept as its text. -/
structure File where
  APIVersion : GoString
  Generated : GoString
  Repositories : List Entry
  deriving DecidableEq, Repr

/-- The zero value of `repo.File` (`var f repo.File`). -/
def File.zero : File := { APIVersion := [], Generated := zeroTime, Repositories := [] }

/-- Modelled from the spec: the entry list after `repo.File.Update` of the helm
library, which is not under src/. The spec has the registrar "upsert the
RepositoryEntry for name (insert if absent, overwrite fields if present)": the
entry that carries the name is overwritten in place, and a name that is absent
is appended. -/
def upsert : List Entry → Entry → List Entry
  | [], e => [e]
  | r :: rs, e => if r.Name = e.Name then e :: rs else r :: upsert rs e

/-- Modelled from the spec: `repo.File.Update` of the helm library (not under
src/), the upsert of one entry into the decoded repositories file. -/
def File.Update (f : File) (e : Entry) : File :=
  { f with Repositories := upsert f.Repositories e }

/-- The helm library's `repo.ChartVersion`: the metadata of one version of a
chart that sync.go and the claims refer to. -/
structure ChartVersion where
  Name : GoString
  Version : GoString
  URLs : List GoString
  deriving DecidableEq, Repr

/-- The helm library's `repo.IndexFile`, the index of one repository: chart
names with the versions listed under them. -/
structure IndexFile where
  Entries : List (GoString × List ChartVersion)
  deriving DecidableEq, Repr

/-- The helm library's `search.Result`, one element of `index.All()`. -/
structure Result where
  Name : GoString
  Score : Int
  Chart : ChartVersion
  deriving DecidableEq, Repr

/-- The helm library's `search.Index`, kept as the record of the `AddRepo`
calls made on it since `search.NewIndex()`: repository name, index and the
`all` flag of each call, in call order. -/
structure Index where
  repos : List (GoString × IndexFile × Bool)
  deriving DecidableEq, Repr

/-- The helm library's `search.NewIndex()`. -/
def NewIndex : Index := { repos := [] }

/-- The helm library's `(*search.Index).AddRepo(rname, ind, all)`. -/
def Index.AddRepo (i : Index) (rname : GoString) (ind : IndexFile) (all : Bool) : Index :=
  { repos := i.repos ++ [(rname, ind, all)] }

/-- The helm library's `helmpath.CacheIndexFile(name)`. -/
def CacheIndexFile (name : GoString) : GoString :=
  (if name ≠ [] then name ++ [dash] else name) ++ str "index.yaml"

/-! ## The environment: libraries, settings and the machine -/

/-- Everything `sync.go` obtains from outside itself. `Doc` is the type of the
bytes of a repositories file. Each field is the result of one library call; the
theorems quantify over the record, so they hold for every behaviour of the
libraries, the network and the disk. -/
structure Env (Doc : Type) where
  /-- the value of `settings.RepositoryConfig` -/
  repoFile : GoString
  /-- the value of `settings.RepositoryCache` -/
  repoCache : GoString
  /-- the cache path `repo.NewChartRepository` sets on the repository it builds -/
  defaultCachePath : GoString
  /-- the identifier `targetPath`, which `pull` passes to `pullChart` -/
  targetPath : GoString
  /-- the call `url.Parse(rawURL)` -/
  parse : GoString → Except GoError URL
  /-- the call `filepath.Clean(path)` -/
  clean : GoString → GoString
  /-- the call `os.MkdirAll(dir, perm)`: its error, if any -/
  mkdirAll : GoString → Option GoError
  /-- the calls `flock.New(lockPath).TryLockContext(ctx, time.Second)`: `locked` and `err` -/
  tryLock : GoString → Bool × Option GoError
  /-- whether `TryLockContext`, when it returns an error, had opened the lock file before
  (it opens the file first, creating it when it is absent, and then tries the lock) -/
  lockOpened : GoString → Bool
  /-- a failure of `os.ReadFile` on a file that may well exist (say, permissions) -/
  readFault : Option String
  /-- the nil byte slice, which `os.ReadFile` returns beside an error -/
  nilDoc : Doc
  /-- the call `yaml.Unmarshal(b, &f)` on the zero `repo.File` -/
  unmarshal : Doc → Except GoError File
  /-- the call `yaml.Marshal(f)` inside `f.WriteFile` -/
  marshal : File → Except GoError Doc
  /-- the call `repo.NewChartRepository(&c, getter.All(settings))`: its error, if any -/
  newChartRepository : Entry → Option GoError
  /-- the call `r.DownloadIndexFile()` for entry `c` with `r.CachePath`: its error, if any -/
  downloadIndexFile : Entry → GoString → Option GoError
  /-- the call `os.WriteFile(repoFile, data, perm)` inside `f.WriteFile`: `none` when it
  succeeds, else its error and the state in which it leaves the file -/
  writeFile : Doc → Option (GoError × Option Doc)
  /-- the call `repo.LoadFile(repoFile)` on the current state of the repositories file -/
  loadFile : Option Doc → Except GoError File
  /-- the call `repo.LoadIndexFile(path)` -/
  loadIndexFile : GoString → Except GoError IndexFile
  /-- the call `index.All()` of this run: the results in the order in which this run ranges
  over the map of the index. The order of a Go map iteration is not fixed, so another run,
  even on the same index, is another environment with another `all` -/
  all : Index → List Result

variable {Doc : Type}

/-- Go `os.ReadFile(repoFile)` as `addHelmRepo` sees it: the bytes and the
error. `reg` is the state of the repositories file, `none` when it does not
exist. -/
def readFile (env : Env Doc) (reg : Option Doc) : Doc × Option GoError :=
  match env.readFault with
  | some msg => (env.nilDoc, some (.lib msg))
  | none =>
    match reg with
    | some d => (d, none)
    | none => (env.nilDoc, some .notExist)

/-- The helm library's `f.WriteFile(repoFile, 0600)`: marshal, make the
directory, write. The result is the error, if any, and the state of the
repositories file afterwards. -/
def WriteFile (env : Env Doc) (f : File) (reg : Option Doc) : Option GoError × Option Doc :=
  match env.marshal f with
  | .error e => (some e, reg)
  | .ok data =>
    match env.mkdirAll (Dir env.clean env.repoFile) with
    | some e => (some e, reg)
    | none =>
      match env.writeFile data with
      | some (e, left) => (some e, left)
      | none => (none, some data)

/-! ## sync.go: addHelmRepo -/

/-- One run of `addHelmRepo`: the error it returns (`none` for nil), the state
of the repositories file when it returns, and the files it handed to
`f.WriteFile`. -/
structure AddRun (Doc : Type) where
  err : Option GoError
  registry : Option Doc
  writeCalls : List File

/-- The entry `c` that `addHelmRepo` builds from its arguments (lines 164-174). -/
def newEntry (name url : GoString) : Entry :=
  { Name := name, URL := url, Username := [], Password := [], PassCredentialsAll := false,
    CertFile := [], KeyFile := [], CAFile := [], InsecureSkipTLSverify := false }

/-- The cache path of the repository that `addHelmRepo` probes (lines 181-183):
`repoCache` when it is not empty, else the path the library has set. -/
def probeCachePath (env : Env Doc) : GoString :=
  if env.repoCache ≠ [] then env.repoCache else env.defaultCachePath

/-- The repositories file once the lock file has been opened. The lock opens
`lockPath` and creates it, empty, when it is absent; that touches the
repositories file only when the lock path is the path of the repositories
file itself, and then an absent file becomes an empty one. -/
def lockFileOpened (env : Env Doc) (reg : Option Doc) : Option Doc :=
  if lockPath env.repoFile = env.repoFile then some (reg.getD env.nilDoc) else reg

/-- The repositories file after `fileLock.TryLockContext` (lines 143-146): the
lock file has been opened when the call returns no error, and when it returns
one after the open. -/
def afterLock (env : Env Doc) (reg : Option Doc) : Option Doc :=
  if (env.tryLock (lockPath env.repoFile)).2.isNone
      || env.lockOpened (lockPath env.repoFile) then
    lockFileOpened env reg
  else reg

/-- The function `addHelmRepo` of sync.go, run on the repositories file in
state `reg`. Two statements touch the repositories file: the file lock, which
creates its lock file (`afterLock`), and `f.WriteFile`. `os.MkdirAll` and the
download of the index are taken to leave that file as it is. The final print
to stdout is not recorded. -/
def addHelmRepo (env : Env Doc) (name url : GoString) (reg : Option Doc) : AddRun Doc :=
  -- err := os.MkdirAll(filepath.Dir(repoFile), os.ModePerm); err != nil && !os.IsExist(err)
  match (env.mkdirAll (Dir env.clean env.repoFile)).filter (fun e => !IsExist e) with
  | some e => { err := some e, registry := reg, writeCalls := [] }
  | none =>
  -- locked, err := fileLock.TryLockContext(lockCtx, time.Second); err != nil
  let held := afterLock env reg
  let fail (e : GoError) : AddRun Doc := { err := some e, registry := held, writeCalls := [] }
  match (env.tryLock (lockPath env.repoFile)).2 with
  | some e => fail e
  | none =>
  -- b, err := os.ReadFile(repoFile); err != nil && !os.IsNotExist(err)
  match (readFile env held).2.filter (fun e => !IsNotExist e) with
  | some e => fail e
  | none =>
  -- yaml.Unmarshal(b, &f)
  match env.unmarshal (readFile env held).1 with
  | .error e => fail e
  | .ok f =>
  let c := newEntry name url
  match env.newChartRepository c with
  | some e => fail e
  | none =>
  -- if repoCache != "" { r.CachePath = repoCache }
  match env.downloadIndexFile c (probeCachePath env) with
  | some e =>
    fail (.wrapf "looks like %q is not a valid chart repository or cannot be reached" [url] e)
  | none =>
  let f1 := f.Update c
  match WriteFile env f1 held with
  | (some e, left) => { err := some e, registry := left, writeCalls := [f1] }
  | (none, left) => { err := none, registry := left, writeCalls := [f1] }

/-! ## sync.go: buildHelmIndex -/

/-- The body of the loop of `buildHelmIndex` (lines 111-120) for one entry `re`
of the repositories file. -/
def indexStep (env : Env Doc) (i : Index) (re : Entry) : Index :=
  let n := re.Name
  let f := Join env.clean [env.repoCache, CacheIndexFile n]
  match env.loadIndexFile f with
  | .error _ => i
  | .ok ind => i.AddRepo n ind true

/-- The function `buildHelmIndex` of sync.go, run on the repositories file in
state `reg`. -/
def buildHelmIndex (env : Env Doc) (reg : Option Doc) : Except GoError Index :=
  match env.loadFile reg with
  | .error _ => .error (.errorf "no repositories found" [])
  | .ok rf => .ok (rf.Repositories.foldl (indexStep env) NewIndex)

/-! ## sync.go: pull -/

/-- How a call of a Go function ends: it returns its `error` (`none` for nil),
or it panics. -/
inductive Outcome where
  | returned (err : Option GoError)
  | panicked (msg : String)
  deriving DecidableEq, Repr

/-- One run of `pull`: how it ends, the state of the repositories file
afterwards, the calls of `pullChart` in order (entry and target path), and the
values of `count` printed to `out` by `"found %d charts\n"`. -/
structure PullRun (Doc : Type) where
  outcome : Outcome
  registry : Option Doc
  pulled : List (Result × GoString)
  out : List Nat

/-- The Go slice expression `s[i:]` on a string: `none` is the run-time panic
"slice bounds out of range", raised when `i` exceeds `len(s)`. -/
def sliceFrom (s : GoString) (i : Nat) : Option GoString :=
  if i ≤ s.length then some (s.drop i) else none

/-- The body of the loop of `pull` (lines 87-93) for one element `r` of
`index.All()`: `calls` are the calls of `pullChart` made so far. -/
def pullStep (env : Env Doc) (chartName : GoString) (calls : List (Result × GoString))
    (r : Result) : List (Result × GoString) :=
  if r.Chart.Name ≠ chartName then calls else calls ++ [(r, env.targetPath)]

/-- The function `pull` of sync.go, run on the repositories file in state
`reg`. -/
def pull (env : Env Doc) (args : List GoString) (reg : Option Doc) : PullRun Doc :=
  let stop (o : Outcome) : PullRun Doc := { outcome := o, registry := reg, pulled := [], out := [] }
  match args with
  | [arg0, arg1] =>
    match env.parse arg0 with
    | .error e => stop (.returned (some (.wrapf "invalid source URI: %w" [] e)))
    | .ok fromURI =>
    match env.parse arg1 with
    | .error e => stop (.returned (some (.wrapf "invalid target URI: %w" [] e)))
    | .ok toURI =>
    if fromURI.Scheme ≠ str "helm" then
      stop (.returned (some (.errorf "source URI must be a helm chart" [])))
    else
    -- fromURI.Path[1:]
    match sliceFrom fromURI.Path 1 with
    | none => stop (.panicked "slice bounds out of range [1:0]")
    | some segment =>
    if Contains segment (str "/") then
      stop (.returned (some (.errorf
        "helm source URI must contain a single path segment (the chart name) was: %q" [segment])))
    else
    let chartName := segment
    if toURI.Scheme ≠ str "file" then
      stop (.returned (some (.errorf "target URI must be a file" [])))
    else
    let helmRepoName := helmHostToRepoName fromURI.Host
    let helmRepoURL := str "https://" ++ fromURI.Host
    let add := addHelmRepo env helmRepoName helmRepoURL reg
    match add.err with
    | some e =>
      { outcome := .returned (some (.wrapf "failed to add helm repository prior to pull: %w" [] e)),
        registry := add.registry, pulled := [], out := [] }
    | none =>
    match buildHelmIndex env add.registry with
    | .error e =>
      { outcome := .returned (some (.wrapf "failed to build the helm index: %w" [] e)),
        registry := add.registry, pulled := [], out := [] }
    | .ok index =>
    let count := 0
    { outcome := .returned none, registry := add.registry,
      pulled := (env.all index).foldl (pullStep env chartName) [],
      out := [count] }
  | _ => stop (.returned (some (.errorf "pull requires 2 arguments, helm pull [source] [target]" [])))

/-! ## A concrete environment

A machine on which every library call succeeds, used to run the functions
above on concrete arguments. The repositories file is a YAML document; the
two yaml libraries that `sync.go` reaches read and write it under their own
keys. -/

/-- Bytes that `url.Parse` takes over unchanged in a host and in a path:
ASCII letters, digits, `.`, `-` and `_`. -/
def plainByte (b : UInt8) : Bool :=
  (97 ≤ b && b ≤ 122) || (65 ≤ b && b ≤ 90) || (48 ≤ b && b ≤ 57) || b == dot || b == dash
    || b == 95

/-- Go `url.Parse` on locators of the shape `scheme://host[/path][?query]`
with a lower-case scheme and plain bytes elsewhere (no userinfo, port, escape
or fragment), where it splits the text without rewriting it. Any other text is
refused here. -/
def parseLocator (rawURL : GoString) : Except GoError URL :=
  let scheme := rawURL.takeWhile (fun b => 97 ≤ b && b ≤ 122)
  let rest := rawURL.dropWhile (fun b => 97 ≤ b && b ≤ 122)
  if scheme.isEmpty || !hasPrefixB rest (str "://") then
    .error (.lib "locator outside the modelled part of url.Parse")
  else
    let body := rest.drop 3
    let beforeQuery := body.takeWhile (fun b => b != 63)
    let query := (body.dropWhile (fun b => b != 63)).drop 1
    let host := beforeQuery.takeWhile (fun b => b != slash)
    let path := beforeQuery.dropWhile (fun b => b != slash)
    if host.all plainByte && path.all (fun b => plainByte b || b == slash)
        && query.all (fun b => plainByte b || b == 61) then
      .ok { Scheme := scheme, Host := host, Path := path, RawQuery := query }
    else
      .error (.lib "locator outside the modelled part of url.Parse")

/-- A scalar of a repositories file, resolved: a string or a boolean. -/
inductive Scalar where
  | text (s : GoString)
  | bool (b : Bool)
  deriving DecidableEq, Repr

/-- A YAML mapping of scalars: its keys with their values, in document order. -/
abbrev YamlMap := List (GoString × Scalar)

/-- A repositories file as a YAML document: the scalars of the top-level
mapping and, under the key `repositories`, one mapping for every entry. -/
structure YamlDoc where
  fields : YamlMap
  repositories : List YamlMap
  deriving DecidableEq, Repr

/-- The keys under which a yaml library looks up the fields of `repo.File` and
`repo.Entry`. -/
structure Keys where
  apiVersion : GoString
  generated : GoString
  name : GoString
  url : GoString
  username : GoString
  password : GoString
  certFile : GoString
  keyFile : GoString
  caFile : GoString
  insecureSkipTLSverify : GoString
  passCredentialsAll : GoString

/-- The keys of the helm library, which writes with `sigs.k8s.io/yaml` in
`f.WriteFile` and reads with it in `repo.LoadFile`: the json tags of the
fields of `repo.File` and `repo.Entry`. -/
def jsonKeys : Keys :=
  { apiVersion := str "apiVersion", generated := str "generated", name := str "name",
    url := str "url", username := str "username", password := str "password",
    certFile := str "certFile", keyFile := str "keyFile", caFile := str "caFile",
    insecureSkipTLSverify := str "insecure_skip_tls_verify",
    passCredentialsAll := str "pass_credentials_all" }

/-- The keys of `gopkg.in/yaml.v2`, the library behind `yaml.Unmarshal` in
`addHelmRepo` (line 160): a field without a yaml tag, as all the fields of
`repo.File` and `repo.Entry` are, is looked up under its name in lower case. -/
def lowerKeys : Keys :=
  { apiVersion := str "apiversion", generated := str "generated", name := str "name",
    url := str "url", username := str "username", password := str "password",
    certFile := str "certfile", keyFile := str "keyfile", caFile := str "cafile",
    insecureSkipTLSverify := str "insecureskiptlsverify",
    passCredentialsAll := str "passcredentialsall" }

/-- The error of a decoder below on a document that it does not model. -/
def notModelled : GoError := .lib "document outside the modelled part of the yaml decoders"

/-- A string field read from a mapping: the zero value when the key is absent. -/
def getText (m : YamlMap) (key : GoString) : Except GoError GoString :=
  match m.lookup key with
  | none => .ok []
  | some (.text t) => .ok t
  | some (.bool _) => .error notModelled

/-- A boolean field read from a mapping: the zero value when the key is
absent, an error of the library on a string. -/
def getBool (m : YamlMap) (key : GoString) : Except GoError Bool :=
  match m.lookup key with
  | none => .ok false
  | some (.bool b) => .ok b
  | some (.text _) => .error (.lib "cannot unmarshal !!str into bool")

/-- The field `generated` read from a mapping: the zero time when the key is
absent. Only the zero time is modelled as a value. -/
def getTime (m : YamlMap) (key : GoString) : Except GoError GoString :=
  match m.lookup key with
  | none => .ok zeroTime
  | some (.text t) => if t = zeroTime then .ok t else .error notModelled
  | some (.bool _) => .error (.lib "cannot unmarshal !!bool into time.Time")

/-- One entry decoded from its mapping under the keys `k`; keys that are not
among `k` are passed over. -/
def decodeEntry (k : Keys) (m : YamlMap) : Except GoError Entry := do
  let name ← getText m k.name
  let url ← getText m k.url
  let username ← getText m k.username
  let password ← getText m k.password
  let passCredentialsAll ← getBool m k.passCredentialsAll
  let certFile ← getText m k.certFile
  let keyFile ← getText m k.keyFile
  let caFile ← getText m k.caFile
  let insecureSkipTLSverify ← getBool m k.insecureSkipTLSverify
  pure { Name := name, URL := url, Username := username, Password := password,
         PassCredentialsAll := passCredentialsAll, CertFile := certFile, KeyFile := keyFile,
         CAFile := caFile, InsecureSkipTLSverify := insecureSkipTLSverify }

/-- The entries decoded from their mappings, in document order. -/
def decodeEntries (k : Keys) : List YamlMap → Except GoError (List Entry)
  | [] => .ok []
  | m :: ms => do
    let e ← decodeEntry k m
    let es ← decodeEntries k ms
    pure (e :: es)

/-- Whether no mapping of the document holds a key twice. -/
def keysDistinct (d : YamlDoc) : Bool :=
  decide (d.fields.map Prod.fst).Nodup && d.repositories.all (fun m => decide (m.map Prod.fst).Nodup)

/-- A document decoded into the zero `repo.File` under the keys `k`. A
document with a key twice in one mapping is refused here. -/
def decodeFile (k : Keys) (d : YamlDoc) : Except GoError File :=
  if keysDistinct d then do
    let apiVersion ← getText d.fields k.apiVersion
    let generated ← getTime d.fields k.generated
    let repositories ← decodeEntries k d.repositories
    pure { APIVersion := apiVersion, Generated := generated, Repositories := repositories }
  else .error notModelled

/-- The call `yaml.Unmarshal(b, &f)` of `addHelmRepo`, which is
`gopkg.in/yaml.v2`: fields are looked up under `lowerKeys`, and a key of the
document that names no field is passed over. -/
def unmarshalV2 (d : YamlDoc) : Except GoError File := decodeFile lowerKeys d

/-- The mapping that the helm library writes for one entry: the json tags as
keys, in the order of the keys. -/
def encodeEntry (e : Entry) : YamlMap :=
  [(jsonKeys.caFile, .text e.CAFile), (jsonKeys.certFile, .text e.CertFile),
   (jsonKeys.insecureSkipTLSverify, .bool e.InsecureSkipTLSverify),
   (jsonKeys.keyFile, .text e.KeyFile), (jsonKeys.name, .text e.Name),
   (jsonKeys.passCredentialsAll, .bool e.PassCredentialsAll),
   (jsonKeys.password, .text e.Password), (jsonKeys.url, .text e.URL),
   (jsonKeys.username, .text e.Username)]

/-- The document that the helm library writes for a file (`yaml.Marshal` of
`sigs.k8s.io/yaml` inside `f.WriteFile`). -/
def marshalHelm (f : File) : YamlDoc :=
  { fields := [(jsonKeys.apiVersion, .text f.APIVersion), (jsonKeys.generated, .text f.Generated)]
    repositories := f.Repositories.map encodeEntry }

/-- The keys that the helm library writes in the mapping of an entry. -/
def entryJsonKeys : List GoString :=
  [jsonKeys.caFile, jsonKeys.certFile, jsonKeys.insecureSkipTLSverify, jsonKeys.keyFile,
   jsonKeys.name, jsonKeys.passCredentialsAll, jsonKeys.password, jsonKeys.url,
   jsonKeys.username]

/-- The decoder of `repo.LoadFile`, which is `sigs.k8s.io/yaml`, on documents
whose keys are json tags, as the helm library writes them. Any other document
is refused here. -/
def loadHelm (d : YamlDoc) : Except GoError File :=
  if d.fields.all (fun kv => kv.1 == jsonKeys.apiVersion || kv.1 == jsonKeys.generated)
      && d.repositories.all (fun m => m.all (fun kv => entryJsonKeys.contains kv.1)) then
    decodeFile jsonKeys d
  else .error notModelled

/-- The separator of chart name and version in a key of the index
(`verSep` of the helm library). -/
def verSep : GoString := str "$$"

/-- The assignment `m[key] = r` on a map kept as a list of its keys with their
values: the value of a key that is there is overwritten. -/
def mapSet (m : List (GoString × Result)) (key : GoString) (r : Result) :
    List (GoString × Result) :=
  match m with
  | [] => [(key, r)]
  | kv :: rest => if kv.1 = key then (kv.1, r) :: rest else kv :: mapSet rest key r

/-- What `AddRepo(rname, ind, true)` does to the map `charts` of the index:
every version of every chart goes under the key `rname/chart$$version`. -/
def addCharts (m : List (GoString × Result)) (rname : GoString) (ind : IndexFile) :
    List (GoString × Result) :=
  ind.Entries.foldl (fun m1 entry =>
    entry.2.foldl (fun m2 cv =>
      mapSet m2 (rname ++ slash :: entry.1 ++ verSep ++ cv.Version)
        { Name := rname ++ slash :: entry.1, Score := 0, Chart := cv }) m1) m

/-- The results of `index.All()` in one order, that in which the keys came
into the map. Only the `AddRepo` calls with `all` set are listed, the calls
that `buildHelmIndex` makes. -/
def allInOrder (i : Index) : List Result :=
  ((i.repos.filter (fun repo => repo.2.2)).foldl
    (fun m repo => addCharts m repo.1 repo.2.1) []).map Prod.snd

/-- The machine with the repositories file at `repoFile`: a cache holding the
index files `cache` (path and content), and a network on which the repository
is reachable or not. -/
def machineAt (repoFile : GoString) (reachable : Bool) (cache : List (GoString × IndexFile)) :
    Env YamlDoc :=
  { repoFile := repoFile
    repoCache := str "/home/u/.cache/helm/repository"
    defaultCachePath := str "/home/u/.cache/helm/repository"
    targetPath := str "/tmp/charts"
    parse := parseLocator
    clean := fun p => if p.length > 1 ∧ p.getLast? = some slash then p.dropLast else p
    mkdirAll := fun _ => none
    tryLock := fun _ => (true, none)
    lockOpened := fun _ => true
    readFault := none
    nilDoc := { fields := [], repositories := [] }
    unmarshal := unmarshalV2
    marshal := fun f => .ok (marshalHelm f)
    newChartRepository := fun _ => none
    downloadIndexFile := fun _ _ =>
      if reachable then none else some (.lib "connection refused")
    writeFile := fun _ => none
    loadFile := fun reg =>
      match reg with
      | some d => loadHelm d
      | none => .error .notExist
    loadIndexFile := fun path =>
      match cache.lookup path with
      | some ind => .ok ind
      | none => .error .notExist
    all := allInOrder }

/-- The machine with the repositories file at its default place. -/
def machine (reachable : Bool) (cache : List (GoString × IndexFile)) : Env YamlDoc :=
  machineAt (str "/home/u/.config/helm/repositories.yaml") reachable cache

/-- One version of the chart `nginx`. -/
def nginx (version : String) : ChartVersion :=
  { Name := str "nginx", Version := str version,
    URLs := [str "https://repo.example.com/nginx-" ++ str version ++ str ".tgz"] }

/-- The index of one repository with chart `nginx` at versions 1.2.0, 1.4.0
and 1.3.5. -/
def nginxIndex : IndexFile :=
  { Entries := [(str "nginx", [nginx "1.2.0", nginx "1.4.0", nginx "1.3.5"])] }

/-- The cache after the index of `repo.example.com` has been downloaded. -/
def nginxCache : List (GoString × IndexFile) :=
  [(str "/home/u/.cache/helm/repository/repo-example-com-index.yaml", nginxIndex)]

/-- A repositories file that lists `repo.example.com` and one repository whose
cached index is missing. -/
def twoRepos : File :=
  { APIVersion := [], Generated := zeroTime,
    Repositories := [newEntry (str "gone") (str "https://gone.example.com"),
      newEntry (str "repo-example-com") (str "https://repo.example.com")] }

/-- A repositories file with one entry, `other`, whose certificate authority
file stands under the key `cafile`, the key of `gopkg.in/yaml.v2`. -/
def lowerKeyRegistry : YamlDoc :=
  { fields := []
    repositories := [[(str "name", .text (str "other")),
      (str "url", .text (str "https://other.example.com")),
      (str "cafile", .text (str "/etc/ssl/other-ca.pem"))]] }

/-- A repositories file as the helm library writes it, with one entry,
`other`. -/
def oneRepo : YamlDoc :=
  marshalHelm
    { APIVersion := [], Generated := zeroTime,
      Repositories := [newEntry (str "other") (str "https://other.example.com")] }

/-! ## Theorems: helmHostToRepoName -/

/-- Replacing `.` by `-` is one-to-one on byte strings that hold no `-`. -/
theorem ReplaceAll_dot_dash_injective (h1 h2 : GoString) (hd1 : dash ∉ h1) (hd2 : dash ∉ h2)
    (heq : ReplaceAll h1 dot dash = ReplaceAll h2 dot dash) : h1 = h2 := by
  induction h1 generalizing h2 with
  | nil =>
    cases h2 with
    | nil => rfl
    | cons b bs => simp [ReplaceAll] at heq
  | cons a as ih =>
    cases h2 with
    | nil => simp [ReplaceAll] at heq
    | cons b bs =>
      simp only [ReplaceAll, List.map_cons, List.cons.injEq] at heq
      simp only [List.mem_cons, not_or] at hd1 hd2
      obtain ⟨hhead, htail⟩ := heq
      have hab : a = b := by
        by_cases ha : a = dot <;> by_cases hb : b = dot
        · rw [ha, hb]
        · rw [if_pos ha, if_neg hb] at hhead
          exact absurd hhead hd2.1
        · rw [if_neg ha, if_pos hb] at hhead
          exact absurd hhead.symm hd1.1
        · rw [if_neg ha, if_neg hb] at hhead
          exact hhead
      rw [hab, ih bs hd1.2 hd2.2 htail]

/-- Claim C2 as stated fails: the hosts `my-repo.example.com` and
`my.repo.example.com` differ and `helmHostToRepoName` maps both to
`my-repo-example-com`, so the mapping is not one-to-one. -/
theorem helmHostToRepoName_not_injective :
    ¬ ∀ h1 h2 : GoString, helmHostToRepoName h1 = helmHostToRepoName h2 → h1 = h2 := by
  intro h
  have hne : str "my-repo.example.com" ≠ str "my.repo.example.com" := by decide
  exact hne (h _ _ (by decide))

/-- Claim C2, amended: on hosts that contain no `-` the mapping
`helmHostToRepoName` is reversible, that is, two such hosts with the same
repository name are the same host. -/
theorem helmHostToRepoName_injective_without_dash (h1 h2 : GoString)
    (hd1 : dash ∉ h1) (hd2 : dash ∉ h2)
    (heq : helmHostToRepoName h1 = helmHostToRepoName h2) : h1 = h2 :=
  ReplaceAll_dot_dash_injective h1 h2 hd1 hd2 heq

/-- Witness of C2 amended, at the hosts `repo.example.com` and
`repo.example.com`. -/
theorem helmHostToRepoName_injective_without_dash_witness :
    dash ∉ str "repo.example.com" ∧
    helmHostToRepoName (str "repo.example.com") = str "repo-example-com" ∧
    str "repo.example.com" = str "repo.example.com" :=
  ⟨by decide, by decide,
    helmHostToRepoName_injective_without_dash (str "repo.example.com") (str "repo.example.com")
      (by decide) (by decide) rfl⟩

/-! ## Theorems: the lock path of addHelmRepo -/

/-- Claim C3, the code at the failing input: for the repositories file
`/home/u/.config/helm/repositories.lock` the lock path that `addHelmRepo`
computes is the repositories file itself. -/
theorem lockPath_of_lock_file :
    lockPath (str "/home/u/.config/helm/repositories.lock")
      = str "/home/u/.config/helm/repositories.lock" := by
  decide

/-- The scan of `filepath.Ext` yields nothing, or a suffix of the path that
holds no separator. -/
theorem extScan_spec (l : List UInt8) (acc : GoString) (hacc : slash ∉ acc) :
    extScan l acc = [] ∨
      ((∃ stem, l.reverse ++ acc = stem ++ extScan l acc) ∧ slash ∉ extScan l acc) := by
  induction l generalizing acc with
  | nil => simp [extScan]
  | cons c rest ih =>
    by_cases hs : c = slash
    · simp [extScan, hs]
    · by_cases hd : c = dot
      · right
        have hres : extScan (c :: rest) acc = c :: acc := by
          unfold extScan
          rw [if_neg hs, if_pos hd]
        rw [hres]
        refine ⟨⟨rest.reverse, by simp⟩, ?_⟩
        simp only [List.mem_cons, not_or]
        exact ⟨fun h => hs h.symm, hacc⟩
      · have hacc2 : slash ∉ c :: acc := by
          simp only [List.mem_cons, not_or]
          exact ⟨fun h => hs h.symm, hacc⟩
        have := ih (c :: acc) hacc2
        simpa [extScan, hs, hd] using this

/-- The extension is empty, or it is a suffix of the path without separator. -/
theorem Ext_spec (path : GoString) :
    Ext path = [] ∨ ((∃ stem, path = stem ++ Ext path) ∧ slash ∉ Ext path) := by
  have := extScan_spec path.reverse [] (by simp)
  simpa [Ext] using this

/-- Trimming a suffix that is there leaves what stands before it. -/
theorem TrimSuffix_append (stem suffix : GoString) : TrimSuffix (stem ++ suffix) suffix = stem := by
  simp [TrimSuffix, HasSuffix]

/-- Bytes after the last separator do not count for the directory. -/
theorem dirScan_append (r rest : List UInt8) (h : slash ∉ r) :
    dirScan (r ++ rest) = dirScan rest := by
  induction r with
  | nil => rfl
  | cons c cs ih =>
    simp only [List.mem_cons, not_or] at h
    have hc : c ≠ slash := fun e => h.1 e.symm
    simp [dirScan, hc, ih h.2]

/-- The lock path has one of two shapes: the path with its extension replaced
by `.lock`, or the path followed by `.lock`. -/
theorem lockPath_shape (repoFile : GoString) :
    (∃ stem, repoFile = stem ++ Ext repoFile ∧ slash ∉ Ext repoFile ∧
      lockPath repoFile = stem ++ str ".lock") ∨
    lockPath repoFile = repoFile ++ str ".lock" := by
  by_cases hc : 0 < (Ext repoFile).length ∧ (Ext repoFile).length < repoFile.length
  · rcases Ext_spec repoFile with hnil | ⟨⟨stem, hstem⟩, hns⟩
    · rw [hnil] at hc
      exact absurd hc.1 (by simp)
    · left
      refine ⟨stem, hstem, hns, ?_⟩
      have ht : TrimSuffix repoFile (Ext repoFile) = stem := by
        have happ := TrimSuffix_append stem (Ext repoFile)
        rwa [← hstem] at happ
      simp only [lockPath, hc, and_self, if_true, ht]
  · right
    simp only [lockPath, hc, if_false]

/-- The lock path always lies in the directory of the repositories file:
`filepath.Dir` gives the same directory for both. -/
theorem lockPath_same_dir (clean : GoString → GoString) (repoFile : GoString) :
    Dir clean (lockPath repoFile) = Dir clean repoFile := by
  have hlock : slash ∉ (str ".lock").reverse := by decide
  rcases lockPath_shape repoFile with ⟨stem, hstem, hns, hl⟩ | hl
  · have hns2 : slash ∉ (Ext repoFile).reverse := by simpa using hns
    unfold Dir
    rw [hl, List.reverse_append, dirScan_append _ _ hlock]
    conv_rhs => rw [hstem, List.reverse_append, dirScan_append _ _ hns2]
  · unfold Dir
    rw [hl, List.reverse_append, dirScan_append _ _ hlock]

/-- The lock path differs from the repositories file whenever the extension of
the file is not `.lock`. -/
theorem lockPath_ne_of_ext_ne (repoFile : GoString) (hext : Ext repoFile ≠ str ".lock") :
    lockPath repoFile ≠ repoFile := by
  rcases lockPath_shape repoFile with ⟨stem, hstem, -, hl⟩ | hl
  · intro h
    rw [hl] at h
    have h2 : stem ++ str ".lock" = stem ++ Ext repoFile := h.trans hstem
    exact hext (List.append_cancel_left h2).symm
  · intro h
    rw [hl] at h
    have := congrArg List.length h
    simp [str] at this

/-! ## Theorems: pull, validation of the locator -/

/-- Claim C1: when the source locator parses with scheme `helm` and its path,
after the leading `/`, contains a `/`, `pull` returns an error; it does so
before it touches the repositories file or pulls anything. -/
theorem pull_rejects_nested_path (env : Env Doc) (reg : Option Doc) (arg0 arg1 : GoString)
    (fromURI : URL) (rest : GoString)
    (hparse : env.parse arg0 = .ok fromURI)
    (hscheme : fromURI.Scheme = str "helm")
    (hpath : fromURI.Path = slash :: rest)
    (hnested : Contains rest (str "/") = true) :
    (∃ e, (pull env [arg0, arg1] reg).outcome = .returned (some e)) ∧
    (pull env [arg0, arg1] reg).registry = reg ∧
    (pull env [arg0, arg1] reg).pulled = [] := by
  have hslice : sliceFrom fromURI.Path 1 = some rest := by
    simp [sliceFrom, hpath]
  cases htarget : env.parse arg1 with
  | error e => simp [pull, hparse, htarget]
  | ok toURI => simp [pull, hparse, htarget, hscheme, hslice, hnested]

/-- Witness of C1, at the locator `helm://repo.example.com/a/b`. -/
theorem pull_rejects_nested_path_witness :
    (∃ e, (pull (machine true nginxCache)
      [str "helm://repo.example.com/a/b", str "file:///tmp/charts"] none).outcome
        = .returned (some e)) ∧
    (pull (machine true nginxCache)
      [str "helm://repo.example.com/a/b", str "file:///tmp/charts"] none).registry = none ∧
    (pull (machine true nginxCache)
      [str "helm://repo.example.com/a/b", str "file:///tmp/charts"] none).pulled = [] :=
  pull_rejects_nested_path (machine true nginxCache) none
    (str "helm://repo.example.com/a/b") (str "file:///tmp/charts")
    { Scheme := str "helm", Host := str "repo.example.com", Path := str "/a/b", RawQuery := [] }
    (str "a/b") (by rfl) (by rfl) (by rfl) (by decide)

/-- Claim C10, the code at the failing input: for the arguments
`helm://repo.example.com` and `file:///tmp/charts`, which both parse,
`pull` does not return: the slice `fromURI.Path[1:]` of the empty path is out
of range and the call panics. -/
theorem pull_panics_on_empty_path :
    (pull (machine true nginxCache)
      [str "helm://repo.example.com", str "file:///tmp/charts"] none).outcome
      = .panicked "slice bounds out of range [1:0]" := by
  decide

/-- For every environment: a source locator of scheme `helm` with an empty
path makes `pull` panic, whatever the target. -/
theorem pull_panics_of_empty_path (env : Env Doc) (reg : Option Doc) (arg0 arg1 : GoString)
    (fromURI toURI : URL)
    (hsource : env.parse arg0 = .ok fromURI) (htarget : env.parse arg1 = .ok toURI)
    (hscheme : fromURI.Scheme = str "helm") (hpath : fromURI.Path = []) :
    (pull env [arg0, arg1] reg).outcome = .panicked "slice bounds out of range [1:0]" := by
  simp [pull, hsource, htarget, hscheme, hpath, sliceFrom]

/-! ## Theorems: addHelmRepo -/

/-- Upserting the same entry a second time changes nothing. -/
theorem upsert_idempotent (l : List Entry) (e : Entry) : upsert (upsert l e) e = upsert l e := by
  induction l with
  | nil => simp [upsert]
  | cons r rs ih =>
    by_cases h : r.Name = e.Name
    · simp [upsert, h]
    · simp [upsert, h, ih]

/-- After an upsert into a list whose names are pairwise different, the name
occurs once. -/
theorem upsert_count (l : List Entry) (e : Entry) (hnd : (l.map (fun r => r.Name)).Nodup) :
    ((upsert l e).filter (fun r => r.Name = e.Name)).length = 1 := by
  induction l with
  | nil => simp [upsert]
  | cons r rs ih =>
    simp only [List.map_cons, List.nodup_cons, List.mem_map, not_exists, not_and] at hnd
    by_cases h : r.Name = e.Name
    · have hrs : rs.filter (fun x => x.Name = e.Name) = [] := by
        rw [List.filter_eq_nil_iff]
        intro x hx
        have := hnd.1 x hx
        simpa [h] using this
      simp [upsert, h, hrs]
    · simp [upsert, h, ih hnd.2]

/-- The lock leaves a repositories file that exists as it is. -/
theorem afterLock_some (env : Env Doc) (d : Doc) : afterLock env (some d) = some d := by
  simp [afterLock, lockFileOpened]

/-- The lock leaves the repositories file as it is when the lock path is another
path. -/
theorem afterLock_of_sibling (env : Env Doc) (reg : Option Doc)
    (hsibling : lockPath env.repoFile ≠ env.repoFile) : afterLock env reg = reg := by
  simp [afterLock, lockFileOpened, hsibling]

/-- What a successful run of `addHelmRepo` went through: every step succeeded,
and the repositories file holds the marshalled update of what was read. -/
theorem addHelmRepo_steps_of_ok (env : Env Doc) (name url : GoString) (reg : Option Doc)
    (h : (addHelmRepo env name url reg).err = none) :
    ∃ f d, (readFile env (afterLock env reg)).2.filter (fun e => !IsNotExist e) = none ∧
      env.unmarshal (readFile env (afterLock env reg)).1 = .ok f ∧
      env.marshal (f.Update (newEntry name url)) = .ok d ∧
      (addHelmRepo env name url reg).registry = some d := by
  cases hmk : (env.mkdirAll (Dir env.clean env.repoFile)).filter (fun e => !IsExist e) with
  | some e => simp [addHelmRepo, hmk] at h
  | none =>
  cases hlock : (env.tryLock (lockPath env.repoFile)).2 with
  | some e => simp [addHelmRepo, hmk, hlock] at h
  | none =>
  cases hread : (readFile env (afterLock env reg)).2.filter (fun e => !IsNotExist e) with
  | some e => simp [addHelmRepo, hmk, hlock, hread] at h
  | none =>
  cases hun : env.unmarshal (readFile env (afterLock env reg)).1 with
  | error e => simp [addHelmRepo, hmk, hlock, hread, hun] at h
  | ok f =>
  cases hnew : env.newChartRepository (newEntry name url) with
  | some e => simp [addHelmRepo, hmk, hlock, hread, hun, hnew] at h
  | none =>
  cases hdl : env.downloadIndexFile (newEntry name url) (probeCachePath env) with
  | some e => simp [addHelmRepo, hmk, hlock, hread, hun, hnew, hdl] at h
  | none =>
  cases hmar : env.marshal (f.Update (newEntry name url)) with
  | error e => simp [addHelmRepo, WriteFile, hmk, hlock, hread, hun, hnew, hdl, hmar] at h
  | ok d =>
  cases hdir : env.mkdirAll (Dir env.clean env.repoFile) with
  | some e =>
    exfalso
    simp only [addHelmRepo, WriteFile, hlock, hread, hun, hnew, hdl, hmar, hdir] at h
    split at h <;> simp at h
  | none =>
  cases hwr : env.writeFile d with
  | some p =>
    simp [addHelmRepo, WriteFile, hmk, hlock, hread, hun, hnew, hdl, hmar, hdir, hwr] at h
  | none =>
    refine ⟨f, d, rfl, rfl, hmar, ?_⟩
    simp [addHelmRepo, WriteFile, hmk, hlock, hread, hun, hnew, hdl, hmar, hdir, hwr]

/-- When the reachability probe `r.DownloadIndexFile()` fails, `addHelmRepo`
returns an error and has not called `f.WriteFile`; the repositories file is in
the state it was in, or in the state in which the lock left it. -/
theorem addHelmRepo_probe_failure_never_writes (env : Env Doc) (name url : GoString)
    (reg : Option Doc) (e : GoError)
    (hprobe : env.downloadIndexFile (newEntry name url) (probeCachePath env) = some e) :
    (∃ err, (addHelmRepo env name url reg).err = some err) ∧
    ((addHelmRepo env name url reg).registry = reg ∨
      (addHelmRepo env name url reg).registry = afterLock env reg) ∧
    (addHelmRepo env name url reg).writeCalls = [] := by
  unfold addHelmRepo
  simp only [hprobe]
  repeat' split
  all_goals simp

/-- When the lock path is not the path of the repositories file and the
reachability probe fails, `addHelmRepo` returns an error, the repositories
file is in the state it was in, and `f.WriteFile` has not been called. -/
theorem addHelmRepo_probe_failure_of_sibling_lock (env : Env Doc) (name url : GoString)
    (reg : Option Doc) (e : GoError)
    (hsibling : lockPath env.repoFile ≠ env.repoFile)
    (hprobe : env.downloadIndexFile (newEntry name url) (probeCachePath env) = some e) :
    (∃ err, (addHelmRepo env name url reg).err = some err) ∧
    (addHelmRepo env name url reg).registry = reg ∧
    (addHelmRepo env name url reg).writeCalls = [] := by
  obtain ⟨herr, hreg, hwrite⟩ := addHelmRepo_probe_failure_never_writes env name url reg e hprobe
  refine ⟨herr, ?_, hwrite⟩
  rcases hreg with h | h
  · exact h
  · rw [h, afterLock_of_sibling env reg hsibling]

/-- The lemma before at the repositories file `repositories.yaml`, absent, on a
machine where every step before the probe succeeds and the probe fails. -/
theorem addHelmRepo_probe_failure_of_sibling_lock_witness :
    (addHelmRepo (machine false []) (str "repo-example-com") (str "https://repo.example.com")
      none).err
      = some (.wrapf "looks like %q is not a valid chart repository or cannot be reached"
          [str "https://repo.example.com"] (.lib "connection refused")) ∧
    ((∃ err, (addHelmRepo (machine false []) (str "repo-example-com")
      (str "https://repo.example.com") none).err = some err) ∧
    (addHelmRepo (machine false []) (str "repo-example-com") (str "https://repo.example.com")
      none).registry = none ∧
    (addHelmRepo (machine false []) (str "repo-example-com") (str "https://repo.example.com")
      none).writeCalls = []) :=
  ⟨by rfl, addHelmRepo_probe_failure_of_sibling_lock (machine false []) (str "repo-example-com")
    (str "https://repo.example.com") none (.lib "connection refused") (by decide) (by rfl)⟩

/-- Claim C4, the code at the failing input: the repositories file is
`/home/u/.config/helm/repositories.lock` and does not exist, and the probe
fails. `addHelmRepo` returns the error of the probe and has not called
`f.WriteFile`, but the repositories file is no longer in the state it was in:
the lock path is the file itself, so the lock has created it, empty. -/
theorem addHelmRepo_probe_failure_creates_registry :
    lockPath (machineAt (str "/home/u/.config/helm/repositories.lock") false []).repoFile
      = (machineAt (str "/home/u/.config/helm/repositories.lock") false []).repoFile ∧
    (addHelmRepo (machineAt (str "/home/u/.config/helm/repositories.lock") false [])
      (str "repo-example-com") (str "https://repo.example.com") none).err
      = some (.wrapf "looks like %q is not a valid chart repository or cannot be reached"
          [str "https://repo.example.com"] (.lib "connection refused")) ∧
    (addHelmRepo (machineAt (str "/home/u/.config/helm/repositories.lock") false [])
      (str "repo-example-com") (str "https://repo.example.com") none).writeCalls = [] ∧
    (addHelmRepo (machineAt (str "/home/u/.config/helm/repositories.lock") false [])
      (str "repo-example-com") (str "https://repo.example.com") none).registry
      = some { fields := [], repositories := [] } ∧
    (addHelmRepo (machineAt (str "/home/u/.config/helm/repositories.lock") false [])
      (str "repo-example-com") (str "https://repo.example.com") none).registry ≠ none := by
  decide

/-- Updating a file twice with the same entry is updating it once. -/
theorem Update_idempotent (f : File) (e : Entry) : (f.Update e).Update e = f.Update e := by
  simp [File.Update, upsert_idempotent]

/-- Registration is idempotent when the file that the first call writes is
read back as it was written. Take a repositories file whose entries have
pairwise different names, and two successful calls of `addHelmRepo` with the
same name and url, the second on the file the first left, possibly on another
state of the machine (`env2`) but with the same yaml libraries. Then the file
after the second call is the file after the first, and it holds exactly one
entry with that name. -/
theorem addHelmRepo_twice_of_read_back (env env2 : Env Doc) (name url : GoString)
    (reg : Option Doc) (f0 : File)
    (hcodec : env2.marshal = env.marshal ∧ env2.unmarshal = env.unmarshal)
    (hf0 : env.unmarshal (readFile env (afterLock env reg)).1 = .ok f0)
    (hback : ∀ d, env.marshal (f0.Update (newEntry name url)) = .ok d →
      env.unmarshal d = .ok (f0.Update (newEntry name url)))
    (hnd : (f0.Repositories.map (fun r => r.Name)).Nodup)
    (h1 : (addHelmRepo env name url reg).err = none)
    (h2 : (addHelmRepo env2 name url (addHelmRepo env name url reg).registry).err = none) :
    (addHelmRepo env2 name url (addHelmRepo env name url reg).registry).registry
      = (addHelmRepo env name url reg).registry ∧
    ∃ d f1, (addHelmRepo env name url reg).registry = some d ∧ env.unmarshal d = .ok f1 ∧
      (f1.Repositories.filter (fun r => r.Name = name)).length = 1 := by
  obtain ⟨f, d, -, hun, hmar, hreg⟩ := addHelmRepo_steps_of_ok env name url reg h1
  have hf : f = f0 := by
    rw [hun] at hf0
    exact Except.ok.inj hf0
  subst hf
  rw [hreg] at h2 ⊢
  obtain ⟨f2, d2, hread2, hun2, hmar2, hreg2⟩ := addHelmRepo_steps_of_ok env2 name url (some d) h2
  have hread : env.unmarshal d = .ok (f.Update (newEntry name url)) := hback d hmar
  rw [afterLock_some] at hread2 hun2
  have hreadd : readFile env2 (some d) = (d, none) := by
    cases hfault : env2.readFault with
    | some msg => simp [readFile, hfault, IsNotExist] at hread2
    | none => simp [readFile, hfault]
  rw [hreadd, hcodec.2, hread] at hun2
  have hf2 : f2 = f.Update (newEntry name url) := (Except.ok.inj hun2).symm
  rw [hf2, Update_idempotent, hcodec.1, hmar] at hmar2
  have hd : d2 = d := (Except.ok.inj hmar2).symm
  refine ⟨by rw [hreg2, hd], d, f.Update (newEntry name url), rfl, hread, ?_⟩
  exact upsert_count f.Repositories (newEntry name url) hnd

/-- The lemma before at a repositories file written by the helm library that
lists `other` and not yet `repo-example-com`. -/
theorem addHelmRepo_twice_of_read_back_witness :
    (addHelmRepo (machine true []) (str "repo-example-com") (str "https://repo.example.com")
      (addHelmRepo (machine true []) (str "repo-example-com") (str "https://repo.example.com")
        (some oneRepo)).registry).registry
      = (addHelmRepo (machine true []) (str "repo-example-com") (str "https://repo.example.com")
        (some oneRepo)).registry ∧
    ∃ d f1, (addHelmRepo (machine true []) (str "repo-example-com")
        (str "https://repo.example.com") (some oneRepo)).registry = some d ∧
      (machine true []).unmarshal d = .ok f1 ∧
      (f1.Repositories.filter (fun r => r.Name = str "repo-example-com")).length = 1 :=
  addHelmRepo_twice_of_read_back (machine true []) (machine true []) (str "repo-example-com")
    (str "https://repo.example.com") (some oneRepo)
    { APIVersion := [], Generated := zeroTime,
      Repositories := [newEntry (str "other") (str "https://other.example.com")] }
    ⟨rfl, rfl⟩ (by rfl)
    (fun d h => by
      have hd : marshalHelm ((File.mk [] zeroTime
          [newEntry (str "other") (str "https://other.example.com")]).Update
            (newEntry (str "repo-example-com") (str "https://repo.example.com"))) = d :=
        Except.ok.inj h
      rw [← hd]
      rfl)
    (by decide) (by rfl) (by rfl)

/-- Claim C5, the code at the failing input: the repositories file lists one
entry, `other`, with its certificate authority file under the key `cafile`, so
no two entries share a name. Two calls of `addHelmRepo` for `repo-example-com`
both succeed, and the file after the second call is not the file after the
first: the first call reads `cafile` with `gopkg.in/yaml.v2` and writes it as
`caFile` with the helm library, and the second call, which does not find
`cafile`, writes an empty `caFile`. -/
theorem addHelmRepo_second_call_rewrites_registry :
    (addHelmRepo (machine true []) (str "repo-example-com") (str "https://repo.example.com")
      (some lowerKeyRegistry)).err = none ∧
    (addHelmRepo (machine true []) (str "repo-example-com") (str "https://repo.example.com")
      (addHelmRepo (machine true []) (str "repo-example-com") (str "https://repo.example.com")
        (some lowerKeyRegistry)).registry).err = none ∧
    (addHelmRepo (machine true []) (str "repo-example-com") (str "https://repo.example.com")
      (addHelmRepo (machine true []) (str "repo-example-com") (str "https://repo.example.com")
        (some lowerKeyRegistry)).registry).registry
      ≠ (addHelmRepo (machine true []) (str "repo-example-com") (str "https://repo.example.com")
        (some lowerKeyRegistry)).registry := by
  decide

/-! ## Theorems: buildHelmIndex -/

/-- What one entry of the repositories file adds to the index: its name with
its cached index when that loads, nothing when it does not. -/
theorem indexStep_repos (env : Env Doc) (i : Index) (re : Entry) :
    (indexStep env i re).repos = i.repos ++
      (match env.loadIndexFile (Join env.clean [env.repoCache, CacheIndexFile re.Name]) with
        | .ok ind => [(re.Name, ind, true)]
        | .error _ => []) := by
  unfold indexStep
  cases h : env.loadIndexFile (Join env.clean [env.repoCache, CacheIndexFile re.Name]) with
  | error e => simp [h]
  | ok ind => simp [h, Index.AddRepo]

/-- The loop of `buildHelmIndex` adds the repositories whose cached index
loads, in the order of the repositories file. -/
theorem foldl_indexStep (env : Env Doc) (l : List Entry) (i : Index) :
    l.foldl (indexStep env) i = { repos := i.repos ++ l.filterMap (fun re =>
      match env.loadIndexFile (Join env.clean [env.repoCache, CacheIndexFile re.Name]) with
      | .ok ind => some (re.Name, ind, true)
      | .error _ => none) } := by
  induction l generalizing i with
  | nil => simp
  | cons re rest ih =>
    rw [List.foldl_cons, ih, indexStep_repos]
    cases h : env.loadIndexFile (Join env.clean [env.repoCache, CacheIndexFile re.Name]) with
    | error e => simp [List.filterMap_cons, h]
    | ok ind => simp [List.filterMap_cons, h]

/-- Claim C9: whenever the repositories file loads, `buildHelmIndex` returns
an index and no error. The index is made of one `AddRepo` for every repository
whose cached index loads, under that repository's own name and in the order of
the file; a repository whose cached index does not load adds nothing. -/
theorem buildHelmIndex_degrades_gracefully (env : Env Doc) (reg : Option Doc) (rf : File)
    (hload : env.loadFile reg = .ok rf) :
    buildHelmIndex env reg = .ok { repos := rf.Repositories.filterMap (fun re =>
      match env.loadIndexFile (Join env.clean [env.repoCache, CacheIndexFile re.Name]) with
      | .ok ind => some (re.Name, ind, true)
      | .error _ => none) } := by
  simp [buildHelmIndex, hload, foldl_indexStep, NewIndex]

/-- Witness of C9: a repositories file that lists `gone`, whose cached index is
missing, and `repo-example-com`, whose cached index loads. -/
theorem buildHelmIndex_degrades_gracefully_witness :
    buildHelmIndex (machine true nginxCache) (some (marshalHelm twoRepos))
      = .ok { repos := [(str "repo-example-com", nginxIndex, true)] } ∧
    buildHelmIndex (machine true nginxCache) (some (marshalHelm twoRepos))
      = .ok { repos := twoRepos.Repositories.filterMap (fun re =>
          match (machine true nginxCache).loadIndexFile
            (Join (machine true nginxCache).clean
              [(machine true nginxCache).repoCache, CacheIndexFile re.Name]) with
          | .ok ind => some (re.Name, ind, true)
          | .error _ => none) } :=
  ⟨by rfl, buildHelmIndex_degrades_gracefully (machine true nginxCache)
    (some (marshalHelm twoRepos)) twoRepos (by rfl)⟩

/-! ## Theorems: pull, the entries handed to pullChart -/

/-- The loop of `pull` calls `pullChart` on the elements whose chart name is
the requested one, in order, each with `targetPath`. -/
theorem foldl_pullStep (env : Env Doc) (chartName : GoString) (l : List Result)
    (calls : List (Result × GoString)) :
    l.foldl (pullStep env chartName) calls
      = calls ++ (l.filter (fun r => r.Chart.Name = chartName)).map
          (fun r => (r, env.targetPath)) := by
  induction l generalizing calls with
  | nil => simp
  | cons r rest ih =>
    rw [List.foldl_cons, ih]
    by_cases h : r.Chart.Name = chartName
    · simp [pullStep, h]
    · simp [pullStep, h]

/-- A run of `pull` that passes validation, registers the repository and builds
the index: it returns nil, prints the count 0 and has called `pullChart` on
the elements of `index.All()` that carry the chart name. -/
theorem pull_of_valid (env : Env Doc) (reg : Option Doc) (arg0 arg1 : GoString)
    (fromURI toURI : URL) (chartName : GoString) (index : Index)
    (hsource : env.parse arg0 = .ok fromURI) (htarget : env.parse arg1 = .ok toURI)
    (hscheme : fromURI.Scheme = str "helm") (hpath : fromURI.Path = slash :: chartName)
    (hsingle : Contains chartName (str "/") = false) (hfile : toURI.Scheme = str "file")
    (hadd : (addHelmRepo env (helmHostToRepoName fromURI.Host)
      (str "https://" ++ fromURI.Host) reg).err = none)
    (hindex : buildHelmIndex env (addHelmRepo env (helmHostToRepoName fromURI.Host)
      (str "https://" ++ fromURI.Host) reg).registry = .ok index) :
    (pull env [arg0, arg1] reg).outcome = .returned none ∧
    (pull env [arg0, arg1] reg).pulled
      = ((env.all index).filter (fun r => r.Chart.Name = chartName)).map
          (fun r => (r, env.targetPath)) ∧
    (pull env [arg0, arg1] reg).out = [0] := by
  have hslice : sliceFrom fromURI.Path 1 = some chartName := by
    simp [sliceFrom, hpath]
  simp [pull, hsource, htarget, hscheme, hslice, hsingle, hfile, hadd, hindex, foldl_pullStep]

/-- Claim C6 as stated fails: for the locator `helm://repo.example.com/nginx`,
which gives no version, and an index with chart `nginx` at versions 1.2.0,
1.4.0 and 1.3.5 from one repository, `pull` passes three entries to
`pullChart`, not the 1.4.0 entry alone. -/
theorem pull_without_version_pulls_all_versions :
    (pull (machine true nginxCache)
      [str "helm://repo.example.com/nginx", str "file:///tmp/charts"] none).pulled.map
        (fun call => call.1.Chart.Version) = [str "1.2.0", str "1.4.0", str "1.3.5"] ∧
    (pull (machine true nginxCache)
      [str "helm://repo.example.com/nginx", str "file:///tmp/charts"] none).pulled.length ≠ 1 := by
  decide

/-- Claim C6, amended: when the source locator `helm://host/chartName` gives no
version and the run gets as far as the index, `pull` returns nil and passes to
`pullChart` every element of `index.All()` whose chart name is the requested
one, in the order of `index.All()`, each with `targetPath`, and nothing else. -/
theorem pull_passes_every_entry_of_chart (env : Env Doc) (reg : Option Doc)
    (arg0 arg1 : GoString) (fromURI toURI : URL) (chartName : GoString) (index : Index)
    (hsource : env.parse arg0 = .ok fromURI) (htarget : env.parse arg1 = .ok toURI)
    (hscheme : fromURI.Scheme = str "helm") (hpath : fromURI.Path = slash :: chartName)
    (_hnoversion : fromURI.RawQuery = [])
    (hsingle : Contains chartName (str "/") = false) (hfile : toURI.Scheme = str "file")
    (hadd : (addHelmRepo env (helmHostToRepoName fromURI.Host)
      (str "https://" ++ fromURI.Host) reg).err = none)
    (hindex : buildHelmIndex env (addHelmRepo env (helmHostToRepoName fromURI.Host)
      (str "https://" ++ fromURI.Host) reg).registry = .ok index) :
    (pull env [arg0, arg1] reg).outcome = .returned none ∧
    (pull env [arg0, arg1] reg).pulled
      = ((env.all index).filter (fun r => r.Chart.Name = chartName)).map
          (fun r => (r, env.targetPath)) :=
  let h := pull_of_valid env reg arg0 arg1 fromURI toURI chartName index hsource htarget
    hscheme hpath hsingle hfile hadd hindex
  ⟨h.1, h.2.1⟩

/-- Witness of C6 amended: the locator `helm://repo.example.com/nginx` on the
machine whose cache holds `nginx` at versions 1.2.0, 1.4.0 and 1.3.5. -/
theorem pull_passes_every_entry_of_chart_witness :
    (pull (machine true nginxCache)
      [str "helm://repo.example.com/nginx", str "file:///tmp/charts"] none).outcome
      = .returned none ∧
    (pull (machine true nginxCache)
      [str "helm://repo.example.com/nginx", str "file:///tmp/charts"] none).pulled
      = (((machine true nginxCache).all { repos := [(str "repo-example-com", nginxIndex, true)] }
          ).filter (fun r => r.Chart.Name = str "nginx")).map
          (fun r => (r, (machine true nginxCache).targetPath)) :=
  pull_passes_every_entry_of_chart (machine true nginxCache) none
    (str "helm://repo.example.com/nginx") (str "file:///tmp/charts")
    { Scheme := str "helm", Host := str "repo.example.com", Path := str "/nginx", RawQuery := [] }
    { Scheme := str "file", Host := [], Path := str "/tmp/charts", RawQuery := [] }
    (str "nginx") { repos := [(str "repo-example-com", nginxIndex, true)] }
    (by rfl) (by rfl) (by rfl) (by rfl) (by rfl) (by decide) (by rfl) (by rfl) (by rfl)

/-- Claim C7 as stated fails: for the locator
`helm://repo.example.com/missing-chart` and an index that holds chart `nginx`
only, `pull` returns nil, that is success, and not an error. -/
theorem pull_of_missing_chart_returns_nil :
    (∀ r ∈ (machine true nginxCache).all { repos := [(str "repo-example-com", nginxIndex, true)] },
      r.Chart.Name ≠ str "missing-chart") ∧
    (pull (machine true nginxCache)
      [str "helm://repo.example.com/missing-chart", str "file:///tmp/charts"] none).outcome
      = .returned none := by
  decide

/-- Claim C7, amended: when the run gets as far as the index and no element of
`index.All()` carries the requested chart name, `pull` returns nil, calls
`pullChart` not at all and prints `found 0 charts`. -/
theorem pull_of_absent_chart (env : Env Doc) (reg : Option Doc)
    (arg0 arg1 : GoString) (fromURI toURI : URL) (chartName : GoString) (index : Index)
    (hsource : env.parse arg0 = .ok fromURI) (htarget : env.parse arg1 = .ok toURI)
    (hscheme : fromURI.Scheme = str "helm") (hpath : fromURI.Path = slash :: chartName)
    (hsingle : Contains chartName (str "/") = false) (hfile : toURI.Scheme = str "file")
    (hadd : (addHelmRepo env (helmHostToRepoName fromURI.Host)
      (str "https://" ++ fromURI.Host) reg).err = none)
    (hindex : buildHelmIndex env (addHelmRepo env (helmHostToRepoName fromURI.Host)
      (str "https://" ++ fromURI.Host) reg).registry = .ok index)
    (habsent : ∀ r ∈ env.all index, r.Chart.Name ≠ chartName) :
    (pull env [arg0, arg1] reg).outcome = .returned none ∧
    (pull env [arg0, arg1] reg).pulled = [] ∧
    (pull env [arg0, arg1] reg).out = [0] := by
  obtain ⟨hout, hpulled, hcount⟩ := pull_of_valid env reg arg0 arg1 fromURI toURI chartName
    index hsource htarget hscheme hpath hsingle hfile hadd hindex
  refine ⟨hout, ?_, hcount⟩
  rw [hpulled, List.map_eq_nil_iff, List.filter_eq_nil_iff]
  intro r hr
  simpa using habsent r hr

/-- Witness of C7 amended: the locator `helm://repo.example.com/missing-chart`
on the machine whose cache holds chart `nginx` only. -/
theorem pull_of_absent_chart_witness :
    (pull (machine true nginxCache)
      [str "helm://repo.example.com/missing-chart", str "file:///tmp/charts"] none).outcome
      = .returned none ∧
    (pull (machine true nginxCache)
      [str "helm://repo.example.com/missing-chart", str "file:///tmp/charts"] none).pulled = [] ∧
    (pull (machine true nginxCache)
      [str "helm://repo.example.com/missing-chart", str "file:///tmp/charts"] none).out = [0] :=
  pull_of_absent_chart (machine true nginxCache) none
    (str "helm://repo.example.com/missing-chart") (str "file:///tmp/charts")
    { Scheme := str "helm", Host := str "repo.example.com", Path := str "/missing-chart",
      RawQuery := [] }
    { Scheme := str "file", Host := [], Path := str "/tmp/charts", RawQuery := [] }
    (str "missing-chart") { repos := [(str "repo-example-com", nginxIndex, true)] }
    (by rfl) (by rfl) (by rfl) (by rfl) (by decide) (by rfl) (by rfl) (by rfl) (by decide)

/-- Claim C8 as stated fails: for the locator
`helm://repo.example.com/nginx?version=1.2.0` and an index with chart `nginx`
at versions 1.2.0, 1.4.0 and 1.3.5, `pull` passes to `pullChart` entries whose
version is not 1.2.0. -/
theorem pull_with_version_pulls_other_versions :
    ¬ ∀ call ∈ (pull (machine true nginxCache)
        [str "helm://repo.example.com/nginx?version=1.2.0", str "file:///tmp/charts"]
        none).pulled,
      call.1.Chart.Version = str "1.2.0" := by
  decide

/-- The version in the source locator is not read: on one environment the run
for `scheme://host/chartName?version=v` is the run for
`scheme://host/chartName`. -/
theorem pull_same_with_version (env : Env Doc) (reg : Option Doc)
    (arg0 arg0v arg1 : GoString) (fromURI : URL) (v : GoString)
    (hplain : env.parse arg0 = .ok fromURI)
    (hversion : env.parse arg0v = .ok { fromURI with RawQuery := str "version=" ++ v }) :
    pull env [arg0v, arg1] reg = pull env [arg0, arg1] reg := by
  simp only [pull, hplain, hversion]

/-- A run in which `index.All()` yields its results in another order ends in
the same way, leaves the same repositories file, prints the same count, and
makes the same calls of `pullChart` but for their order. -/
theorem pull_of_other_order (env : Env Doc) (all2 : Index → List Result)
    (horder : ∀ i, (all2 i).Perm (env.all i)) (args : List GoString) (reg : Option Doc) :
    (pull { env with all := all2 } args reg).outcome = (pull env args reg).outcome ∧
    (pull { env with all := all2 } args reg).registry = (pull env args reg).registry ∧
    (pull { env with all := all2 } args reg).pulled.Perm (pull env args reg).pulled ∧
    (pull { env with all := all2 } args reg).out = (pull env args reg).out := by
  have hadd : ∀ n u, addHelmRepo { env with all := all2 } n u reg = addHelmRepo env n u reg :=
    fun _ _ => rfl
  have hbuild : ∀ r, buildHelmIndex { env with all := all2 } r = buildHelmIndex env r :=
    fun _ => rfl
  have hstep : ∀ c, pullStep { env with all := all2 } c = pullStep env c := fun _ => rfl
  unfold pull
  simp only [hadd, hbuild, hstep, foldl_pullStep]
  repeat' split
  all_goals simp_all
  exact ((horder _).filter _).map _

/-- Claim C8, amended: the version in the source locator is not read. Take
the run for `scheme://host/chartName?version=v` and a run for
`scheme://host/chartName`, in which `index.All()` may yield its results in
another order. The two runs end in the same way, leave the same repositories
file, and make the same calls of `pullChart` but for their order: the entries
of the requested chart are pulled whatever their version. -/
theorem pull_ignores_version (env : Env Doc) (all2 : Index → List Result) (reg : Option Doc)
    (arg0 arg0v arg1 : GoString) (fromURI : URL) (v : GoString)
    (hplain : env.parse arg0 = .ok fromURI)
    (hversion : env.parse arg0v = .ok { fromURI with RawQuery := str "version=" ++ v })
    (horder : ∀ i, (all2 i).Perm (env.all i)) :
    (pull { env with all := all2 } [arg0v, arg1] reg).outcome
      = (pull env [arg0, arg1] reg).outcome ∧
    (pull { env with all := all2 } [arg0v, arg1] reg).registry
      = (pull env [arg0, arg1] reg).registry ∧
    (pull { env with all := all2 } [arg0v, arg1] reg).pulled.Perm
      (pull env [arg0, arg1] reg).pulled := by
  have h := pull_of_other_order env all2 horder [arg0v, arg1] reg
  rw [pull_same_with_version env reg arg0 arg0v arg1 fromURI v hplain hversion] at h
  exact ⟨h.1, h.2.1, h.2.2.1⟩

/-- Witness of C8 amended: the locators
`helm://repo.example.com/nginx?version=1.2.0` and
`helm://repo.example.com/nginx`, the run with the version ranging over the
index in the reverse order. -/
theorem pull_ignores_version_witness :
    (pull { machine true nginxCache with all := fun i => (allInOrder i).reverse }
      [str "helm://repo.example.com/nginx?version=1.2.0", str "file:///tmp/charts"] none).outcome
      = (pull (machine true nginxCache)
        [str "helm://repo.example.com/nginx", str "file:///tmp/charts"] none).outcome ∧
    (pull { machine true nginxCache with all := fun i => (allInOrder i).reverse }
      [str "helm://repo.example.com/nginx?version=1.2.0", str "file:///tmp/charts"] none).registry
      = (pull (machine true nginxCache)
        [str "helm://repo.example.com/nginx", str "file:///tmp/charts"] none).registry ∧
    (pull { machine true nginxCache with all := fun i => (allInOrder i).reverse }
      [str "helm://repo.example.com/nginx?version=1.2.0", str "file:///tmp/charts"] none).pulled.Perm
      (pull (machine true nginxCache)
        [str "helm://repo.example.com/nginx", str "file:///tmp/charts"] none).pulled :=
  pull_ignores_version (machine true nginxCache) (fun i => (allInOrder i).reverse) none
    (str "helm://repo.example.com/nginx") (str "helm://repo.example.com/nginx?version=1.2.0")
    (str "file:///tmp/charts")
    { Scheme := str "helm", Host := str "repo.example.com", Path := str "/nginx", RawQuery := [] }
    (str "1.2.0") (by rfl) (by rfl) (fun i => List.reverse_perm (allInOrder i))

end Sctl
